import Mathlib

/-!
Shallow embedding of `eda_utils.py` (Iowa liquor sales EDA helpers) and proofs
about its three functions: `bar_plot_top_n`, `map_to_coarse_category` and
`extract_city_from_store`.

Conventions of the embedding:
* A Python value that may be `NaN`/`None` is an `Option`; `pd.isna x` is `x = none`
  (for scalar arguments) or the `Value.vNa` constructor (for dataframe cells).
* A Python `dict` is an association list in insertion order, matching the
  defined iteration order of `dict.items()`.
* Python strings manipulated character-wise are `List Char`; `str.strip()` is
  `pyStrip` (whitespace modelled by `Char.isWhitespace`) and `str.split('/')`
  is `splitOnChar '/'`, which like Python keeps empty segments and returns a
  single segment for a separator-free string.
* A pandas `DataFrame` is column-oriented: named index levels plus named data
  columns, each a list of cells. Fallible dataframe operations return `Except`.
-/

/-- A dataframe cell: a string, a number (ℚ stands in for Python floats/ints),
or a missing value (`NaN`). -/
inductive Value where
  | vStr (s : String)
  | vNum (q : ℚ)
  | vNa
deriving DecidableEq

/-- `pd.isna` on a cell. -/
def Value.isNa : Value → Bool
  | vNa => true
  | _ => false

/-- Numeric view of a cell; strings and `NaN` have none. -/
def Value.toNum? : Value → Option ℚ
  | vNum q => some q
  | _ => none

/-- Lexicographic comparison of character lists: the model's computable
stand-in for Python string ordering. -/
def charListLt : List Char → List Char → Bool
  | [], [] => false
  | [], _ :: _ => true
  | _ :: _, [] => false
  | c :: cs, d :: ds => if c < d then true else if d < c then false else charListLt cs ds

/-- Total comparator on cells, used to model pandas' ascending sort of group
keys (`groupby(..., sort=True)`): missing first, then numbers, then strings. -/
def Value.ltB : Value → Value → Bool
  | .vNa, .vNa => false
  | .vNa, _ => true
  | .vNum _, .vNa => false
  | .vNum a, .vNum b => a.blt b
  | .vNum _, .vStr _ => true
  | .vStr a, .vStr b => charListLt a.data b.data
  | .vStr _, _ => false

/-! ### List machinery shared by the embedding -/

/-- Keep the first occurrence of every element, in first-appearance order
(the order in which pandas hash-based grouping emits distinct keys). -/
def uniqueKeys : List Value → List Value
  | [] => []
  | v :: vs => v :: (uniqueKeys vs).filter (fun w => decide (w ≠ v))

/-- Number of occurrences of `v` in `vs`. -/
def countOcc (v : Value) (vs : List Value) : Nat :=
  (vs.filter (fun w => decide (w = v))).length

/-- Insert `a` into `l`, walking past every `b` that the comparator keeps
strictly ahead of `a`.  With `before b a = true` meaning "`b` stays ahead",
this is the cell of a stable insertion sort. -/
def insertSorted {α : Type} (before : α → α → Bool) (a : α) : List α → List α
  | [] => [a]
  | b :: bs => if before b a then b :: insertSorted before a bs else a :: b :: bs

/-- Stable insertion sort with respect to a strict comparator. -/
def sortWith {α : Type} (before : α → α → Bool) : List α → List α
  | [] => []
  | a :: as => insertSorted before a (sortWith before as)

/-- Comparator for `sort_values(ascending=False)`: a pair stays ahead iff its
aggregated value is strictly larger; `⊥` (pandas `NaN`) therefore sinks to the
end, matching `na_position='last'`. -/
def beforeDesc (x y : Value × WithBot ℚ) : Bool :=
  decide (y.2 < x.2)

/-! ### Python string helpers (on `List Char`) -/

/-- Python `s.split(sep)` for a one-character separator: keeps empty segments,
returns `[s]` when the separator does not occur. -/
def splitOnChar (sep : Char) : List Char → List (List Char)
  | [] => [[]]
  | c :: cs =>
    let rest := splitOnChar sep cs
    if c = sep then [] :: rest
    else
      match rest with
      | [] => [[c]]
      | r :: rs => (c :: r) :: rs

/-- Python `s.strip()`: drop leading and trailing whitespace. -/
def pyStrip (l : List Char) : List Char :=
  ((l.dropWhile Char.isWhitespace).reverse.dropWhile Char.isWhitespace).reverse

/-! ### `map_to_coarse_category` (src/eda_utils.py:81-102) -/

/-- `map_to_coarse_category(category, coarse_category_mapping)`: `'UNKNOWN'`
for a missing category, otherwise the first coarse key (in the dict's
iteration order) whose detailed list contains the category, else `'UNKNOWN'`. -/
def map_to_coarse_category : Option String → List (String × List String) → String
  | none, _ => "UNKNOWN"
  | some _, [] => "UNKNOWN"
  | some c, (coarse, detailed) :: rest =>
    if c ∈ detailed then coarse else map_to_coarse_category (some c) rest

/-! ### `extract_city_from_store` (src/eda_utils.py:105-124) -/

/-- `extract_city_from_store(store_name)`: `None` for a missing name, else
split on `'/'`; with more than one segment return the last one stripped,
otherwise `None`. -/
def extract_city_from_store : Option (List Char) → Option (List Char)
  | none => none
  | some store_name =>
    let parts := splitOnChar '/' store_name
    if parts.length > 1 then some (pyStrip (parts.getLastD []))
    else none

/-! ### The dataframe model -/

/-- Column-oriented pandas dataframe: named index levels and named data
columns.  A `MultiIndex` is two or more index levels. -/
structure PDataFrame where
  indexCols : List (String × List Value)
  cols : List (String × List Value)
deriving DecidableEq

/-- `isinstance(data.index, pd.MultiIndex)`. -/
def PDataFrame.isMultiIndex (df : PDataFrame) : Bool :=
  2 ≤ df.indexCols.length

/-- `data.reset_index()` (not in place): index levels become ordinary leading
columns and the index reverts to the default range index. -/
def PDataFrame.reset_index (df : PDataFrame) : PDataFrame :=
  ⟨[], df.indexCols ++ df.cols⟩

/-- Errors the aggregator can raise. `keyNotFound` models a pandas
`KeyError`; `unsupportedAgg` models the error pandas raises for an
aggregation name its engine does not recognize. -/
inductive PdError where
  | keyNotFound (col : String)
  | unsupportedAgg (f : String)
deriving DecidableEq

/-- `max(6, top_n * 0.4)`: the figure height of the rendered chart (0.4 as
2/5). -/
def figHeight (top_n : Nat) : ℚ :=
  max 6 ((top_n : ℚ) * (2/5))

/-- The column names of a frame (its data columns; index levels are not
addressable by `df[c]`). -/
def colNames (df : PDataFrame) : List String :=
  df.cols.map Prod.fst

/-- Lines 34-38 of the source: the frame the aggregation works on — the
caller's frame with a MultiIndex flattened by `reset_index()`, or a plain
`copy()` otherwise (a copy is the identity in this pure model). -/
def workingFrame (data : PDataFrame) : PDataFrame :=
  if data.isMultiIndex then data.reset_index else data

/-- `df[c]` / `df.groupby(c)` column lookup: the data columns only. -/
def getCol (df : PDataFrame) (c : String) : Except PdError (List Value) :=
  match df.cols.find? (fun p => decide (p.1 = c)) with
  | some p => .ok p.2
  | none => .error (.keyNotFound c)

/-- The closed enumeration of aggregation names this model recognizes,
standing for the aggregations the pandas engine accepts. -/
inductive AggFunc where
  | sum
  | count
  | mean
  | nunique
deriving DecidableEq

/-- Dispatch an `agg_func` string to the aggregation it names. -/
def parseAgg : String → Option AggFunc
  | "sum" => some .sum
  | "count" => some .count
  | "mean" => some .mean
  | "nunique" => some .nunique
  | _ => none

/-- Apply an aggregation to the cells of one group, with pandas' missing-value
semantics: `count` counts non-missing cells, `nunique` counts distinct
non-missing cells, `sum` adds the numeric cells (0 when there are none) and
`mean` averages them (`NaN`, i.e. `⊥`, when there are none). -/
def applyAgg : AggFunc → List Value → WithBot ℚ
  | .sum, vs => ((vs.filterMap Value.toNum?).sum : ℚ)
  | .count, vs => ((vs.filter (fun v => ! v.isNa)).length : ℚ)
  | .mean, vs =>
    let ns := vs.filterMap Value.toNum?
    if ns.length = 0 then ⊥ else ((ns.sum / ns.length : ℚ) : WithBot ℚ)
  | .nunique, vs => (((vs.filter (fun v => ! v.isNa)).dedup).length : ℚ)

/-- `series.value_counts()`: drop missing cells, count occurrences of each
distinct cell, sort by count descending (`NaN` cannot occur among counts). -/
def value_counts (vs : List Value) : List (Value × WithBot ℚ) :=
  let nonNa := vs.filter (fun v => ! v.isNa)
  sortWith beforeDesc
    ((uniqueKeys nonNa).map (fun v => (v, ((countOcc v nonNa : ℚ) : WithBot ℚ))))

/-- `df.groupby(g)[v].agg(f)` for a recognized `f`: pair the group-key column
with the value column, drop rows whose key is missing, list the distinct keys
in ascending order (pandas sorts group keys), and aggregate each group's value
cells. -/
def groupAgg (ks vs : List Value) (f : AggFunc) : List (Value × WithBot ℚ) :=
  let pairs := (ks.zip vs).filter (fun p => ! p.1.isNa)
  (sortWith Value.ltB (uniqueKeys (pairs.map Prod.fst))).map
    (fun k => (k, applyAgg f ((pairs.filter (fun p => decide (p.1 = k))).map Prod.snd)))

/-! ### `bar_plot_top_n` (src/eda_utils.py:7-78) -/

/-- The observable outcome of a successful `bar_plot_top_n` call: the series
fed to `sns.barplot` (group label with aggregated value, already truncated to
the top N) together with the resolved labels and figure geometry. -/
structure ChartSpec where
  data : List (Value × WithBot ℚ)
  title : String
  xlabel : String
  ylabel : String
  figWidth : ℚ
  figHeight : ℚ
deriving DecidableEq

/-- `bar_plot_top_n(data, group_by_col, value_col, title, xlabel, ylabel,
agg_func, top_n)`.  The Python defaults are `value_col=None`, `title=None`,
`xlabel=None`, `ylabel=None`, `agg_func='sum'`, `top_n=10`; callers of the
model pass them explicitly.  The figure is 12 wide and `max(6, top_n * 0.4)`
high (0.4 written as 2/5). -/
def bar_plot_top_n (data : PDataFrame) (group_by_col : String)
    (value_col : Option String) (title : Option String) (xlabel : Option String)
    (ylabel : Option String) (agg_func : String) (top_n : Nat) :
    Except PdError ChartSpec :=
  let df := workingFrame data
  match value_col with
  | none =>
    match getCol df group_by_col with
    | .error e => .error e
    | .ok col =>
      let grouped_data := (value_counts col).take top_n
      let xl := xlabel.getD "Count"
      let t := title.getD ("Top " ++ toString top_n ++ " " ++ group_by_col ++ " by Count")
      .ok ⟨grouped_data, t, xl, ylabel.getD group_by_col, 12, figHeight top_n⟩
  | some vc =>
    match getCol df group_by_col with
    | .error e => .error e
    | .ok ks =>
      match getCol df vc with
      | .error e => .error e
      | .ok vs =>
        match parseAgg agg_func with
        | none => .error (.unsupportedAgg agg_func)
        | some f =>
          let grouped_data := (sortWith beforeDesc (groupAgg ks vs f)).take top_n
          let xl := xlabel.getD (vc ++ " (" ++ agg_func ++ ")")
          let t := title.getD ("Top " ++ toString top_n ++ " " ++ group_by_col ++
            " by " ++ vc ++ " (" ++ agg_func ++ ")")
          .ok ⟨grouped_data, t, xl, ylabel.getD group_by_col, 12, figHeight top_n⟩

/-- `data.reset_index()` with its effect on the caller's object made explicit:
`inplace` defaults to `False`, so the call returns a fresh frame and leaves the
receiver untouched. -/
def reset_index_op (data : PDataFrame) : PDataFrame × PDataFrame :=
  (data.reset_index, data)

/-- `data.copy()` with its effect on the caller's object made explicit: a deep
copy is returned and the receiver is untouched. -/
def copy_op (data : PDataFrame) : PDataFrame × PDataFrame :=
  (data, data)

/-- `bar_plot_top_n` with the caller's dataframe threaded as explicit state:
the second component is the caller's frame as it stands after the call.  The
body performs exactly the source's two receiver operations (`reset_index()` on
a MultiIndex frame, `copy()` otherwise) and then works on the local `df`. -/
def bar_plot_top_n_call (data : PDataFrame) (group_by_col : String)
    (value_col : Option String) (title : Option String) (xlabel : Option String)
    (ylabel : Option String) (agg_func : String) (top_n : Nat) :
    Except PdError ChartSpec × PDataFrame :=
  let st := if data.isMultiIndex then reset_index_op data else copy_op data
  let df := st.1
  let result :=
    match value_col with
    | none =>
      match getCol df group_by_col with
      | .error e => .error e
      | .ok col =>
        let grouped_data := (value_counts col).take top_n
        let xl := xlabel.getD "Count"
        let t := title.getD ("Top " ++ toString top_n ++ " " ++ group_by_col ++ " by Count")
        .ok (⟨grouped_data, t, xl, ylabel.getD group_by_col, 12,
          figHeight top_n⟩ : ChartSpec)
    | some vc =>
      match getCol df group_by_col with
      | .error e => .error e
      | .ok ks =>
        match getCol df vc with
        | .error e => .error e
        | .ok vs =>
          match parseAgg agg_func with
          | none => .error (.unsupportedAgg agg_func)
          | some f =>
            let grouped_data := (sortWith beforeDesc (groupAgg ks vs f)).take top_n
            let xl := xlabel.getD (vc ++ " (" ++ agg_func ++ ")")
            let t := title.getD ("Top " ++ toString top_n ++ " " ++ group_by_col ++
              " by " ++ vc ++ " (" ++ agg_func ++ ")")
            .ok ⟨grouped_data, t, xl, ylabel.getD group_by_col, 12,
              figHeight top_n⟩
  (result, st.2)

/-- Modelled from the spec: `bar_plot_top_10` appears in no source file under
src/; the spec describes it as a fixed-N=10 special case of `bar_plot_top_n`
retained for backward compatibility, so it is modelled as exactly that call
with `top_n = 10`. -/
def bar_plot_top_10 (data : PDataFrame) (group_by_col : String)
    (value_col : Option String) (title : Option String) (xlabel : Option String)
    (ylabel : Option String) (agg_func : String) : Except PdError ChartSpec :=
  bar_plot_top_n data group_by_col value_col title xlabel ylabel agg_func 10

/-! ### Decidability of result equality, and concrete sample data -/

instance {ε α : Type} [DecidableEq ε] [DecidableEq α] : DecidableEq (Except ε α) := fun a b =>
  match a, b with
  | .error x, .error y =>
    if h : x = y then .isTrue (by rw [h]) else .isFalse (fun hh => by cases hh; exact h rfl)
  | .error _, .ok _ => .isFalse (fun hh => by cases hh)
  | .ok _, .error _ => .isFalse (fun hh => by cases hh)
  | .ok x, .ok y =>
    if h : x = y then .isTrue (by rw [h]) else .isFalse (fun hh => by cases hh; exact h rfl)

/-- A small sample frame: column `G` with groups A, B, B and numeric column
`V`. -/
def sampleDf : PDataFrame :=
  ⟨[], [("G", [.vStr "A", .vStr "B", .vStr "B"]), ("V", [.vNum 5, .vNum 1, .vNum 2])]⟩

/-- A frame with the right columns but zero rows. -/
def emptyDf : PDataFrame :=
  ⟨[], [("G", []), ("V", [])]⟩

/-- A frame whose value column has missing cells: groups A, A, B with values
NaN, NaN, 1. -/
def naValueDf : PDataFrame :=
  ⟨[], [("G", [.vStr "A", .vStr "A", .vStr "B"]), ("V", [.vNa, .vNa, .vNum 1])]⟩

/-! ### Basic lemmas about the string helpers -/

theorem splitOnChar_ne_nil (sep : Char) (l : List Char) : splitOnChar sep l ≠ [] := by
  cases l with
  | nil => simp [splitOnChar]
  | cons c cs =>
    simp only [splitOnChar]
    split
    · simp
    · cases h : splitOnChar sep cs <;> simp

theorem splitOnChar_of_not_mem {sep : Char} {l : List Char} (h : sep ∉ l) :
    splitOnChar sep l = [l] := by
  induction l with
  | nil => rfl
  | cons c cs ih =>
    have hc : c ≠ sep := fun hcs => h (hcs ▸ List.mem_cons_self c cs)
    have hcs : sep ∉ cs := fun hm => h (List.mem_cons_of_mem c hm)
    simp only [splitOnChar, if_neg hc, ih hcs]

theorem splitOnChar_length_of_mem {sep : Char} {l : List Char} (h : sep ∈ l) :
    1 < (splitOnChar sep l).length := by
  induction l with
  | nil => cases h
  | cons c cs ih =>
    simp only [splitOnChar]
    by_cases hc : c = sep
    · rw [if_pos hc]
      have := splitOnChar_ne_nil sep cs
      cases hh : splitOnChar sep cs with
      | nil => exact absurd hh this
      | cons r rs => simp
    · rw [if_neg hc]
      have hmem : sep ∈ cs := by
        rcases List.mem_cons.mp h with h1 | h1
        · exact absurd h1.symm hc
        · exact h1
      have hlen := ih hmem
      cases hh : splitOnChar sep cs with
      | nil => exact absurd hh (splitOnChar_ne_nil sep cs)
      | cons r rs =>
        rw [hh] at hlen
        simpa using hlen

theorem pyStrip_of_all_whitespace {l : List Char} (h : ∀ c ∈ l, c.isWhitespace) :
    pyStrip l = [] := by
  unfold pyStrip
  rw [List.dropWhile_eq_nil_iff.mpr h]
  simp


/-! ### C1: first matching coarse key -/

/-- C1: for every non-null category string and every mapping,
`map_to_coarse_category` returns the first coarse key, in the mapping's
iteration order, whose detailed list contains the category under exact
case-sensitive membership (`"UNKNOWN"` when no key matches); in particular
`coarsen("VODKA", {"SPIRITS": ["VODKA","RUM"], "OTHER": ["VODKA"]})`
is `"SPIRITS"`. -/
theorem coarsen_first_coarse_key (c : String) (mapping : List (String × List String)) :
    map_to_coarse_category (some c) mapping
      = ((mapping.find? (fun p => decide (c ∈ p.2))).map Prod.fst).getD "UNKNOWN" ∧
    map_to_coarse_category (some "VODKA")
      [("SPIRITS", ["VODKA", "RUM"]), ("OTHER", ["VODKA"])] = "SPIRITS" := by
  refine ⟨?_, by decide⟩
  induction mapping with
  | nil => rfl
  | cons p rest ih =>
    obtain ⟨coarse, detailed⟩ := p
    by_cases h : c ∈ detailed
    · simp [map_to_coarse_category, List.find?, h]
    · simp only [map_to_coarse_category, if_neg h, List.find?, decide_eq_false h]
      exact ih

/-! ### C5: when exactly `"UNKNOWN"` is returned -/

/-- C5 counterexample: with the mapping `{"UNKNOWN": ["X"]}` and category
`"X"`, the function returns `"UNKNOWN"` from the scan even though a coarse
key's detailed list does contain the category, so "returns `"UNKNOWN"` exactly
when the input is missing or no detailed list contains it" is false as
stated. -/
theorem coarsen_unknown_cex :
    ¬ (map_to_coarse_category (some "X") [("UNKNOWN", ["X"])] = "UNKNOWN" ↔
        ((some "X" : Option String) = none ∨
          ∀ p ∈ [("UNKNOWN", ["X"])], "X" ∉ p.2)) := by
  decide

/-- C5 amended: a missing category yields `"UNKNOWN"` for every mapping, and
for a mapping none of whose coarse keys is itself the string `"UNKNOWN"`, the
function returns `"UNKNOWN"` exactly when the category is missing or no coarse
key's detailed list contains it. -/
theorem coarsen_unknown_iff_no_match (cat : Option String)
    (mapping : List (String × List String)) :
    map_to_coarse_category none mapping = "UNKNOWN" ∧
    ((∀ p ∈ mapping, p.1 ≠ "UNKNOWN") →
      (map_to_coarse_category cat mapping = "UNKNOWN" ↔
        (cat = none ∨ ∀ c, cat = some c → ∀ p ∈ mapping, c ∉ p.2))) := by
  refine ⟨by cases mapping <;> rfl, ?_⟩
  intro hkeys
  cases cat with
  | none => simp [map_to_coarse_category]
  | some c =>
    simp only [Option.some.injEq, reduceCtorEq, false_or]
    constructor
    · intro heq c' hc'
      cases hc'
      intro p hp hmem
      induction mapping with
      | nil => cases hp
      | cons q rest ih =>
        obtain ⟨coarse, detailed⟩ := q
        by_cases h : c ∈ detailed
        · rw [map_to_coarse_category, if_pos h] at heq
          exact hkeys _ (List.mem_cons_self _ _) heq
        · rcases List.mem_cons.mp hp with hq | hq
          · cases hq
            exact h hmem
          · rw [map_to_coarse_category, if_neg h] at heq
            exact ih (fun p hp => hkeys p (List.mem_cons_of_mem _ hp)) heq hq
    · intro hno
      induction mapping with
      | nil => rfl
      | cons q rest ih =>
        obtain ⟨coarse, detailed⟩ := q
        have hhead : c ∉ detailed := fun hmem =>
          hno c rfl (coarse, detailed) (List.mem_cons_self _ _) hmem
        rw [map_to_coarse_category, if_neg hhead]
        exact ih (fun p hp => hkeys p (List.mem_cons_of_mem _ hp))
          (fun c' hc' p hp => hno c' hc' p (List.mem_cons_of_mem _ hp))

/-- Witness for C5 at a concrete input: the mapping `{"A": ["B"]}` has no key
`"UNKNOWN"`, and `coarsen("X")` on it returns `"UNKNOWN"` because no detailed
list contains `"X"`. -/
theorem coarsen_unknown_iff_no_match_witness :
    (∀ p ∈ [("A", ["B"])], p.1 ≠ "UNKNOWN") ∧
    (map_to_coarse_category (some "X") [("A", ["B"])] = "UNKNOWN" ↔
      ((some "X" : Option String) = none ∨
        ∀ c, (some "X" : Option String) = some c → ∀ p ∈ [("A", ["B"])], c ∉ p.2)) :=
  ⟨by decide, (coarsen_unknown_iff_no_match (some "X") [("A", ["B"])]).2 (by decide)⟩

/-! ### C2: city extraction -/

/-- C2: `extract_city_from_store` returns the absent marker on missing input;
when splitting on `'/'` yields more than one segment it returns the last
segment trimmed of surrounding whitespace; and when the string contains no
`'/'` it returns the absent marker, never the original string. -/
theorem extract_city_spec (s : List Char) :
    extract_city_from_store none = none ∧
    (1 < (splitOnChar '/' s).length →
      extract_city_from_store (some s)
        = some (pyStrip ((splitOnChar '/' s).getLastD []))) ∧
    ('/' ∉ s → extract_city_from_store (some s) = none) := by
  refine ⟨rfl, ?_, ?_⟩
  · intro h
    simp only [extract_city_from_store, gt_iff_lt]
    rw [if_pos h]
  · intro h
    simp only [extract_city_from_store, gt_iff_lt, splitOnChar_of_not_mem h,
      List.length_singleton]
    rw [if_neg (by omega)]

/-- Witness for C2 at concrete inputs: a name with a `'/'` yields the trimmed
city, and a slash-free name yields the absent marker. -/
theorem extract_city_spec_witness :
    (1 < (splitOnChar '/' ("CITY LIQUORS / DES MOINES".toList)).length ∧
      extract_city_from_store (some ("CITY LIQUORS / DES MOINES".toList))
        = some (pyStrip ((splitOnChar '/' ("CITY LIQUORS / DES MOINES".toList)).getLastD []))) ∧
    ('/' ∉ ("NOSLASH STORE".toList) ∧
      extract_city_from_store (some ("NOSLASH STORE".toList)) = none) :=
  ⟨⟨by decide, (extract_city_spec _).2.1 (by decide)⟩,
   ⟨by decide, (extract_city_spec _).2.2 (by decide)⟩⟩

/-! ### C10: whitespace-only final segment -/

/-- C10: for a non-null store name that contains `'/'` but whose final
`'/'`-separated segment is all whitespace, the function returns the empty
string, not the absent marker. -/
theorem extract_city_whitespace_tail (s : List Char)
    (hmem : '/' ∈ s)
    (hws : ∀ c ∈ (splitOnChar '/' s).getLastD [], c.isWhitespace) :
    extract_city_from_store (some s) = some [] := by
  have hlen := splitOnChar_length_of_mem hmem
  simp only [extract_city_from_store, gt_iff_lt]
  rw [if_pos hlen, pyStrip_of_all_whitespace hws]

/-- Witness for C10: `"ACME STORE / "` contains a `'/'`, its final segment is
the single space, and extraction returns the empty string. -/
theorem extract_city_whitespace_tail_witness :
    '/' ∈ ("ACME STORE / ".toList) ∧
    (∀ c ∈ (splitOnChar '/' ("ACME STORE / ".toList)).getLastD [], c.isWhitespace) ∧
    extract_city_from_store (some ("ACME STORE / ".toList)) = some [] :=
  ⟨by decide, by decide, extract_city_whitespace_tail _ (by decide) (by decide)⟩

/-! ### Lemmas about the insertion sort -/

theorem mem_insertSorted {α : Type} (before : α → α → Bool) (a x : α) (l : List α) :
    x ∈ insertSorted before a l ↔ x = a ∨ x ∈ l := by
  induction l with
  | nil => simp [insertSorted]
  | cons b bs ih =>
    simp only [insertSorted]
    split
    · rw [List.mem_cons, ih, List.mem_cons]
      tauto
    · simp only [List.mem_cons]

theorem perm_insertSorted {α : Type} (before : α → α → Bool) (a : α) (l : List α) :
    List.Perm (insertSorted before a l) (a :: l) := by
  induction l with
  | nil => exact List.Perm.refl _
  | cons b bs ih =>
    simp only [insertSorted]
    split
    · exact (ih.cons b).trans (List.Perm.swap a b bs)
    · exact List.Perm.refl _

theorem perm_sortWith {α : Type} (before : α → α → Bool) (l : List α) :
    List.Perm (sortWith before l) l := by
  induction l with
  | nil => exact List.Perm.refl _
  | cons a as ih => exact (perm_insertSorted before a (sortWith before as)).trans (ih.cons a)

theorem pairwise_insertSorted_desc (a : Value × WithBot ℚ) (l : List (Value × WithBot ℚ))
    (hl : l.Pairwise (fun x y => y.2 ≤ x.2)) :
    (insertSorted beforeDesc a l).Pairwise (fun x y => y.2 ≤ x.2) := by
  induction l with
  | nil => simp [insertSorted]
  | cons b bs ih =>
    rcases List.pairwise_cons.mp hl with ⟨hb, hbs⟩
    simp only [insertSorted]
    by_cases h : beforeDesc b a
    · rw [if_pos h]
      refine List.pairwise_cons.mpr ⟨?_, ih hbs⟩
      intro x hx
      rcases (mem_insertSorted beforeDesc a x bs).mp hx with rfl | hx
      · exact le_of_lt (of_decide_eq_true h)
      · exact hb x hx
    · rw [if_neg h]
      have hba : b.2 ≤ a.2 := le_of_not_lt (fun hlt => h (decide_eq_true hlt))
      refine List.pairwise_cons.mpr ⟨?_, hl⟩
      intro x hx
      rcases List.mem_cons.mp hx with rfl | hx
      · exact hba
      · exact le_trans (hb x hx) hba

theorem pairwise_sortWith_desc (l : List (Value × WithBot ℚ)) :
    (sortWith beforeDesc l).Pairwise (fun x y => y.2 ≤ x.2) := by
  induction l with
  | nil => simp [sortWith]
  | cons a as ih => exact pairwise_insertSorted_desc a (sortWith beforeDesc as) ih

/-! ### C3: at most N entries, sorted descending -/

theorem bar_plot_data_shape (data : PDataFrame) (g : String) (v : Option String)
    (t xl yl : Option String) (af : String) (n : Nat) (chart : ChartSpec)
    (h : bar_plot_top_n data g v t xl yl af n = .ok chart) :
    ∃ l, chart.data = (sortWith beforeDesc l).take n := by
  cases v with
  | none =>
    simp only [bar_plot_top_n] at h
    cases hg : getCol (workingFrame data) g with
    | error e => rw [hg] at h; simp at h
    | ok col =>
      rw [hg] at h
      injection h with h
      subst h
      exact ⟨_, rfl⟩
  | some vc =>
    simp only [bar_plot_top_n] at h
    cases hg : getCol (workingFrame data) g with
    | error e => rw [hg] at h; simp at h
    | ok ks =>
      rw [hg] at h
      cases hv : getCol (workingFrame data) vc with
      | error e => rw [hv] at h; simp at h
      | ok vs =>
        rw [hv] at h
        cases ha : parseAgg af with
        | none => rw [ha] at h; simp at h
        | some f =>
          rw [ha] at h
          injection h with h
          subst h
          exact ⟨_, rfl⟩

/-- C3: whenever `bar_plot_top_n` succeeds with some `top_n = N ≥ 1`, the
aggregated series it renders (value counts when `value_col` is omitted,
group-aggregate-sort otherwise) has at most N entries, and its aggregated
values are non-increasing. -/
theorem bar_plot_top_n_topN_sorted (data : PDataFrame) (g : String) (v : Option String)
    (t xl yl : Option String) (af : String) (n : Nat) (chart : ChartSpec)
    (hN : 1 ≤ n)
    (h : bar_plot_top_n data g v t xl yl af n = .ok chart) :
    chart.data.length ≤ n ∧ chart.data.Pairwise (fun x y => y.2 ≤ x.2) := by
  obtain ⟨l, hdata⟩ := bar_plot_data_shape data g v t xl yl af n chart h
  rw [hdata]
  constructor
  · rw [List.length_take]
    exact min_le_left _ _
  · exact (pairwise_sortWith_desc l).sublist (List.take_sublist _ _)

/-- Witness for C3 on the sample frame with N = 3: the count branch succeeds
and its series obeys the bound and the descending order. -/
theorem bar_plot_top_n_topN_sorted_witness :
    (1 ≤ 3 ∧
      bar_plot_top_n sampleDf "G" none none none none "sum" 3
        = .ok ⟨[(.vStr "B", ((2 : ℚ) : WithBot ℚ)), (.vStr "A", ((1 : ℚ) : WithBot ℚ))],
            "Top 3 G by Count", "Count", "G", 12, figHeight 3⟩) ∧
    ([(.vStr "B", ((2 : ℚ) : WithBot ℚ)), (.vStr "A", ((1 : ℚ) : WithBot ℚ))] :
        List (Value × WithBot ℚ)).length ≤ 3 ∧
    ([(.vStr "B", ((2 : ℚ) : WithBot ℚ)), (.vStr "A", ((1 : ℚ) : WithBot ℚ))] :
        List (Value × WithBot ℚ)).Pairwise (fun x y => y.2 ≤ x.2) :=
  ⟨⟨by decide, by rfl⟩,
    bar_plot_top_n_topN_sorted sampleDf "G" none none none none "sum" 3
      ⟨[(.vStr "B", ((2 : ℚ) : WithBot ℚ)), (.vStr "A", ((1 : ℚ) : WithBot ℚ))],
        "Top 3 G by Count", "Count", "G", 12, figHeight 3⟩ (by decide) (by rfl)⟩

/-! ### C7: the caller's frame is never mutated -/

/-- C7: `bar_plot_top_n` operates on a working copy — `reset_index()` for a
MultiIndex frame, `copy()` otherwise, both leaving the receiver untouched —
so after the call the caller's frame is unchanged, and the call computes
exactly what the pure function computes. -/
theorem bar_plot_top_n_no_mutation (data : PDataFrame) (g : String) (v : Option String)
    (t xl yl : Option String) (af : String) (n : Nat) :
    (bar_plot_top_n_call data g v t xl yl af n).2 = data ∧
    (bar_plot_top_n_call data g v t xl yl af n).1 = bar_plot_top_n data g v t xl yl af n := by
  constructor
  · unfold bar_plot_top_n_call
    by_cases h : data.isMultiIndex <;> simp [h, reset_index_op, copy_op]
  · unfold bar_plot_top_n_call bar_plot_top_n workingFrame reset_index_op copy_op
    by_cases h : data.isMultiIndex <;> simp [h]

/-! ### C9: `bar_plot_top_10` is the fixed-N=10 special case -/

/-- C9: `bar_plot_top_10` behaves identically to `bar_plot_top_n` with
`top_n = 10` on every input: same aggregated series, same labels, same figure
geometry. -/
theorem bar_plot_top_10_equiv (data : PDataFrame) (g : String) (v : Option String)
    (t xl yl : Option String) (af : String) :
    bar_plot_top_10 data g v t xl yl af = bar_plot_top_n data g v t xl yl af 10 := rfl

/-! ### Column lookup lemmas -/

theorem getCol_error_of_not_mem {df : PDataFrame} {c : String} (h : c ∉ colNames df) :
    getCol df c = .error (.keyNotFound c) := by
  have hf : df.cols.find? (fun p => decide (p.1 = c)) = none :=
    List.find?_eq_none.mpr (fun p hp => by
      simp only [decide_eq_true_eq]
      exact fun hpc => h (hpc ▸ List.mem_map_of_mem Prod.fst hp))
  unfold getCol
  rw [hf]

theorem getCol_ok_of_mem {df : PDataFrame} {c : String} (h : c ∈ colNames df) :
    ∃ col, getCol df c = .ok col := by
  obtain ⟨p, hp, hpc⟩ := List.mem_map.mp h
  cases hf : df.cols.find? (fun q => decide (q.1 = c)) with
  | none =>
    rw [List.find?_eq_none] at hf
    exact absurd (by simpa using hpc) (by simpa using hf p hp)
  | some q =>
    refine ⟨q.2, ?_⟩
    unfold getCol
    rw [hf]

theorem getCol_ok_mem {df : PDataFrame} {c : String} {col : List Value}
    (h : getCol df c = .ok col) : ∃ p ∈ df.cols, p.2 = col := by
  unfold getCol at h
  cases hf : df.cols.find? (fun p => decide (p.1 = c)) with
  | none => rw [hf] at h; cases h
  | some q =>
    rw [hf] at h
    injection h with h
    exact ⟨q, List.mem_of_find?_eq_some hf, h⟩

/-! ### C6: fail-fast error propagation -/

/-- C6: `bar_plot_top_n` fails fast, propagating the failure as its result:
a `group_by_col` absent from the working frame yields its key-not-found
failure; with a present `group_by_col`, an absent `value_col` yields its
key-not-found failure; and with both columns present, an unrecognized
`agg_func` yields the unsupported-aggregation failure.  No retry or recovery
occurs: the error is the call's entire outcome. -/
theorem bar_plot_top_n_fail_fast (data : PDataFrame) (g : String) (v : Option String)
    (t xl yl : Option String) (af : String) (n : Nat) :
    (g ∉ colNames (workingFrame data) →
      bar_plot_top_n data g v t xl yl af n = .error (.keyNotFound g)) ∧
    (∀ vc, v = some vc → g ∈ colNames (workingFrame data) →
      vc ∉ colNames (workingFrame data) →
      bar_plot_top_n data g v t xl yl af n = .error (.keyNotFound vc)) ∧
    (∀ vc, v = some vc → g ∈ colNames (workingFrame data) →
      vc ∈ colNames (workingFrame data) → parseAgg af = none →
      bar_plot_top_n data g v t xl yl af n = .error (.unsupportedAgg af)) := by
  refine ⟨?_, ?_, ?_⟩
  · intro hg
    cases v with
    | none =>
      simp only [bar_plot_top_n]
      rw [getCol_error_of_not_mem hg]
    | some vc =>
      simp only [bar_plot_top_n]
      rw [getCol_error_of_not_mem hg]
  · rintro vc rfl hg hvc
    obtain ⟨ks, hks⟩ := getCol_ok_of_mem hg
    simp only [bar_plot_top_n]
    rw [hks, getCol_error_of_not_mem hvc]
  · rintro vc rfl hg hvc ha
    obtain ⟨ks, hks⟩ := getCol_ok_of_mem hg
    obtain ⟨vs, hvs⟩ := getCol_ok_of_mem hvc
    simp only [bar_plot_top_n]
    rw [hks, hvs, ha]

/-- Witness for C6 at concrete inputs: a missing group column, a missing value
column, and an unrecognized aggregation name each produce their failure. -/
theorem bar_plot_top_n_fail_fast_witness :
    (("X" ∉ colNames (workingFrame sampleDf)) ∧
      bar_plot_top_n sampleDf "X" none none none none "sum" 10
        = .error (.keyNotFound "X")) ∧
    (bar_plot_top_n sampleDf "G" (some "W") none none none "sum" 10
        = .error (.keyNotFound "W")) ∧
    (bar_plot_top_n sampleDf "G" (some "V") none none none "median" 10
        = .error (.unsupportedAgg "median")) :=
  ⟨⟨by decide,
    (bar_plot_top_n_fail_fast sampleDf "X" none none none none "sum" 10).1 (by decide)⟩,
   (bar_plot_top_n_fail_fast sampleDf "G" (some "W") none none none "sum" 10).2.1
     "W" rfl (by decide) (by decide),
   (bar_plot_top_n_fail_fast sampleDf "G" (some "V") none none none "median" 10).2.2
     "V" rfl (by decide) (by decide) (by decide)⟩

/-! ### C8: degenerate sizes do not fail -/

theorem length_value_counts (vs : List Value) :
    (value_counts vs).length = (uniqueKeys (vs.filter (fun x => ! x.isNa))).length := by
  unfold value_counts
  rw [(perm_sortWith _ _).length_eq, List.length_map]

theorem length_groupAgg (ks vs : List Value) (f : AggFunc) :
    (groupAgg ks vs f).length
      = (uniqueKeys (((ks.zip vs).filter (fun p => ! p.1.isNa)).map Prod.fst)).length := by
  unfold groupAgg
  rw [List.length_map, (perm_sortWith _ _).length_eq]

/-- C8: `bar_plot_top_n` does not fail on degenerate sizes.  When `top_n` is
at least the number of distinct groups, the call succeeds and every group is
retained (in either branch); and on a table with zero rows but valid columns
it succeeds with an empty series. -/
theorem bar_plot_top_n_degenerate_sizes (data : PDataFrame) (g : String) (v : Option String)
    (t xl yl : Option String) (af : String) (n : Nat) :
    (∀ col, getCol (workingFrame data) g = .ok col →
      (uniqueKeys (col.filter (fun x => ! x.isNa))).length ≤ n →
      ∃ chart, bar_plot_top_n data g none t xl yl af n = .ok chart ∧
        chart.data.length = (uniqueKeys (col.filter (fun x => ! x.isNa))).length) ∧
    (∀ vc ks vs f, v = some vc → getCol (workingFrame data) g = .ok ks →
      getCol (workingFrame data) vc = .ok vs → parseAgg af = some f →
      (uniqueKeys (((ks.zip vs).filter (fun p => ! p.1.isNa)).map Prod.fst)).length ≤ n →
      ∃ chart, bar_plot_top_n data g v t xl yl af n = .ok chart ∧
        chart.data.length
          = (uniqueKeys (((ks.zip vs).filter (fun p => ! p.1.isNa)).map Prod.fst)).length) ∧
    ((∀ p ∈ data.cols, p.2 = ([] : List Value)) → data.indexCols = [] →
      g ∈ colNames data → (∀ vc, v = some vc → vc ∈ colNames data) →
      (∀ vc, v = some vc → ∃ f, parseAgg af = some f) →
      ∃ chart, bar_plot_top_n data g v t xl yl af n = .ok chart ∧ chart.data = []) := by
  have hwfid : ∀ d : PDataFrame, d.indexCols = [] → workingFrame d = d := by
    intro d hd
    simp [workingFrame, PDataFrame.isMultiIndex, hd]
  refine ⟨?_, ?_, ?_⟩
  · intro col hcol hle
    simp only [bar_plot_top_n]
    rw [hcol]
    refine ⟨_, rfl, ?_⟩
    rw [List.take_of_length_le (by rw [length_value_counts]; exact hle),
      length_value_counts]
  · rintro vc ks vs f rfl hks hvs ha hle
    simp only [bar_plot_top_n]
    rw [hks, hvs, ha]
    refine ⟨_, rfl, ?_⟩
    rw [List.take_of_length_le
        (by rw [(perm_sortWith _ _).length_eq, length_groupAgg]; exact hle),
      (perm_sortWith _ _).length_eq, length_groupAgg]
  · intro hempty hidx hg hv ha
    cases v with
    | none =>
      obtain ⟨col, hcol⟩ := getCol_ok_of_mem
        (show g ∈ colNames (workingFrame data) by rw [hwfid data hidx]; exact hg)
      rw [hwfid data hidx] at hcol
      obtain ⟨p, hp, hpc⟩ := getCol_ok_mem hcol
      have hcolnil : col = [] := hpc.symm.trans (hempty p hp)
      subst hcolnil
      simp only [bar_plot_top_n]
      rw [hwfid data hidx, hcol]
      refine ⟨_, rfl, ?_⟩
      simp [value_counts, uniqueKeys, sortWith]
    | some vc =>
      obtain ⟨f, hf⟩ := ha vc rfl
      obtain ⟨ks, hks⟩ := getCol_ok_of_mem
        (show g ∈ colNames (workingFrame data) by rw [hwfid data hidx]; exact hg)
      obtain ⟨vs, hvs⟩ := getCol_ok_of_mem
        (show vc ∈ colNames (workingFrame data) by rw [hwfid data hidx]; exact hv vc rfl)
      rw [hwfid data hidx] at hks hvs
      obtain ⟨p, hp, hpc⟩ := getCol_ok_mem hks
      have hksnil : ks = [] := hpc.symm.trans (hempty p hp)
      subst hksnil
      simp only [bar_plot_top_n]
      rw [hwfid data hidx, hks, hvs, hf]
      refine ⟨_, rfl, ?_⟩
      simp [groupAgg, uniqueKeys, sortWith]

/-- Witness for C8: on the sample frame, `top_n = 10` exceeds the 2 distinct
groups and all groups are kept; and on the zero-row frame, the call succeeds
with an empty series. -/
theorem bar_plot_top_n_degenerate_sizes_witness :
    (getCol (workingFrame sampleDf) "G" = .ok [Value.vStr "A", .vStr "B", .vStr "B"] ∧
      (uniqueKeys ([Value.vStr "A", .vStr "B", .vStr "B"].filter (fun x => ! x.isNa))).length ≤ 10 ∧
      (∃ chart, bar_plot_top_n sampleDf "G" none none none none "sum" 10 = .ok chart ∧
        chart.data.length
          = (uniqueKeys ([Value.vStr "A", .vStr "B", .vStr "B"].filter (fun x => ! x.isNa))).length)) ∧
    ((∀ p ∈ emptyDf.cols, p.2 = ([] : List Value)) ∧
      (∃ chart, bar_plot_top_n emptyDf "G" (some "V") none none none "sum" 5 = .ok chart ∧
        chart.data = [])) :=
  ⟨⟨by rfl, by decide,
      (bar_plot_top_n_degenerate_sizes sampleDf "G" none none none none "sum" 10).1
        [Value.vStr "A", .vStr "B", .vStr "B"] (by rfl) (by decide)⟩,
   ⟨by decide,
      (bar_plot_top_n_degenerate_sizes emptyDf "G" (some "V") none none none "sum" 5).2.2
        (by decide) rfl (by decide) (fun vc h => by cases h; decide)
        (fun vc h => ⟨.sum, by decide⟩)⟩⟩

/-! ### C4: value counts versus count aggregation -/

theorem countOcc_zip (k : Value) : ∀ (ks vs : List Value), ks.length = vs.length →
    ((ks.zip vs).filter (fun p => decide (p.1 = k))).length = countOcc k ks := by
  intro ks
  induction ks with
  | nil => intro vs h; simp [countOcc]
  | cons a ks ih =>
    intro vs h
    cases vs with
    | nil => simp at h
    | cons b vs =>
      have hlen : ks.length = vs.length := by simpa using h
      have ihv := ih vs hlen
      unfold countOcc at ihv ⊢
      simp only [List.zip_cons_cons, List.filter_cons]
      by_cases hk : a = k
      · simp [hk, ihv]
      · simp [hk, ihv]

theorem sorted_desc_nodup_eq (l₁ l₂ : List (Value × WithBot ℚ))
    (hperm : List.Perm l₁ l₂)
    (h₁ : l₁.Pairwise (fun x y => y.2 ≤ x.2))
    (h₂ : l₂.Pairwise (fun x y => y.2 ≤ x.2))
    (hnd : (l₁.map Prod.snd).Nodup) :
    l₁ = l₂ := by
  have hnd₂ : (l₂.map Prod.snd).Nodup := ((hperm.map Prod.snd).nodup_iff).mp hnd
  have hne₁ : l₁.Pairwise (fun x y => x.2 ≠ y.2) := List.pairwise_map.mp hnd
  have hne₂ : l₂.Pairwise (fun x y => x.2 ≠ y.2) := List.pairwise_map.mp hnd₂
  have hs₁ : l₁.Pairwise (fun x y => y.2 < x.2) :=
    (h₁.and hne₁).imp (fun h => lt_of_le_of_ne h.1 (Ne.symm h.2))
  have hs₂ : l₂.Pairwise (fun x y => y.2 < x.2) :=
    (h₂.and hne₂).imp (fun h => lt_of_le_of_ne h.1 (Ne.symm h.2))
  haveI : IsAntisymm (Value × WithBot ℚ) (fun x y => y.2 < x.2) :=
    ⟨fun a b hab hba => absurd hba (lt_asymm hab)⟩
  exact List.eq_of_perm_of_sorted hperm hs₁ hs₂

theorem value_counts_eq_sorted_groupAgg_count (ks vs : List Value)
    (hlen : ks.length = vs.length)
    (hkna : ∀ x ∈ ks, x.isNa = false)
    (hvna : ∀ x ∈ vs, x.isNa = false)
    (hnodup : ((uniqueKeys ks).map (fun k => countOcc k ks)).Nodup) :
    value_counts ks = sortWith beforeDesc (groupAgg ks vs .count) := by
  have hfilter : ks.filter (fun x => ! x.isNa) = ks :=
    List.filter_eq_self.mpr (fun x hx => by rw [hkna x hx]; rfl)
  have hpairs : (ks.zip vs).filter (fun p => ! p.1.isNa) = ks.zip vs :=
    List.filter_eq_self.mpr (fun p hp => by
      obtain ⟨a, b⟩ := p
      rw [hkna a (List.of_mem_zip hp).1]
      rfl)
  have hmapfst : (ks.zip vs).map Prod.fst = ks := List.map_fst_zip ks vs (le_of_eq hlen)
  have hagg : (fun k => (k, applyAgg .count
        (((ks.zip vs).filter (fun p => decide (p.1 = k))).map Prod.snd)))
      = (fun k => (k, ((countOcc k ks : ℚ) : WithBot ℚ))) := by
    funext k
    have hsub : ((((ks.zip vs).filter (fun p => decide (p.1 = k))).map Prod.snd).filter
          (fun v => ! v.isNa))
        = ((ks.zip vs).filter (fun p => decide (p.1 = k))).map Prod.snd := by
      apply List.filter_eq_self.mpr
      intro x hx
      obtain ⟨p, hp, rfl⟩ := List.mem_map.mp hx
      have hpz : p ∈ ks.zip vs := List.mem_of_mem_filter hp
      obtain ⟨a, b⟩ := p
      rw [hvna b (List.of_mem_zip hpz).2]
      rfl
    simp only [applyAgg, hsub, List.length_map, countOcc_zip k ks vs hlen]
  simp only [value_counts, groupAgg, hfilter, hpairs, hmapfst, hagg]
  have hAB : List.Perm
      ((sortWith Value.ltB (uniqueKeys ks)).map (fun k => (k, ((countOcc k ks : ℚ) : WithBot ℚ))))
      ((uniqueKeys ks).map (fun k => (k, ((countOcc k ks : ℚ) : WithBot ℚ)))) :=
    (perm_sortWith Value.ltB (uniqueKeys ks)).map _
  refine sorted_desc_nodup_eq _ _ ?_ (pairwise_sortWith_desc _) (pairwise_sortWith_desc _) ?_
  · exact (perm_sortWith beforeDesc _).trans ((hAB.symm).trans (perm_sortWith beforeDesc _).symm)
  · have hinj : Function.Injective (fun m : Nat => ((m : ℚ) : WithBot ℚ)) := by
      intro m m' hmm
      exact Nat.cast_injective (WithBot.coe_injective hmm)
    have : (((uniqueKeys ks).map (fun k => (k, ((countOcc k ks : ℚ) : WithBot ℚ)))).map
        Prod.snd).Nodup := by
      rw [List.map_map]
      have : (Prod.snd ∘ fun k => (k, ((countOcc k ks : ℚ) : WithBot ℚ)))
          = (fun m : Nat => ((m : ℚ) : WithBot ℚ)) ∘ (fun k => countOcc k ks) := rfl
      rw [this, ← List.map_map]
      exact hnodup.map hinj
    exact (((perm_sortWith beforeDesc _).map Prod.snd).nodup_iff).mpr this

/-- C4 counterexample: on a frame whose value column has missing cells
(groups A, A, B with values NaN, NaN, 1 and no missing group keys), the
value-counts branch ranks A first (2 rows) while `agg_func='count'` counts
only non-missing value cells and ranks B first, so the claimed equivalence
fails as stated. -/
theorem value_counts_vs_count_agg_cex :
    ¬ ((bar_plot_top_n naValueDf "G" none none none none "sum" 10).map ChartSpec.data
        = (bar_plot_top_n naValueDf "G" (some "V") none none none "count" 10).map
            ChartSpec.data) := by
  decide

/-- C4 amended: on a well-formed frame (group and value columns of equal
length) with no missing cells in either column and pairwise distinct group
counts (no ties), omitting `value_col` yields exactly the same ranked series
as `agg_func='count'` on an explicit value column, for every `top_n`. -/
theorem value_counts_eq_count_agg_of_clean (data : PDataFrame) (g vc : String)
    (t xl yl t2 xl2 yl2 : Option String) (af : String) (n : Nat)
    (ks vs : List Value)
    (hks : getCol (workingFrame data) g = .ok ks)
    (hvs : getCol (workingFrame data) vc = .ok vs)
    (hlen : ks.length = vs.length)
    (hkna : ∀ x ∈ ks, x.isNa = false)
    (hvna : ∀ x ∈ vs, x.isNa = false)
    (hnodup : ((uniqueKeys ks).map (fun k => countOcc k ks)).Nodup) :
    (bar_plot_top_n data g none t xl yl af n).map ChartSpec.data
      = (bar_plot_top_n data g (some vc) t2 xl2 yl2 "count" n).map ChartSpec.data := by
  simp only [bar_plot_top_n]
  rw [hks, hvs, (by decide : parseAgg "count" = some AggFunc.count)]
  simp only [Except.map]
  rw [value_counts_eq_sorted_groupAgg_count ks vs hlen hkna hvna hnodup]

/-- Witness for C4 amended, on the sample frame: both calls produce the same
ranked series. -/
theorem value_counts_eq_count_agg_of_clean_witness :
    (getCol (workingFrame sampleDf) "G" = .ok [Value.vStr "A", .vStr "B", .vStr "B"] ∧
      getCol (workingFrame sampleDf) "V" = .ok [Value.vNum 5, .vNum 1, .vNum 2] ∧
      ((uniqueKeys [Value.vStr "A", .vStr "B", .vStr "B"]).map
        (fun k => countOcc k [Value.vStr "A", .vStr "B", .vStr "B"])).Nodup) ∧
    (bar_plot_top_n sampleDf "G" none none none none "sum" 10).map ChartSpec.data
      = (bar_plot_top_n sampleDf "G" (some "V") none none none "count" 10).map
          ChartSpec.data :=
  ⟨⟨by rfl, by rfl, by decide⟩,
   value_counts_eq_count_agg_of_clean sampleDf "G" "V" none none none none none none
     "sum" 10 [Value.vStr "A", .vStr "B", .vStr "B"] [Value.vNum 5, .vNum 1, .vNum 2]
     (by rfl) (by rfl) (by decide) (by decide) (by decide) (by decide)⟩
